import Mathlib

/-!
Verification of the adaptive treatment-combination search engine of the
skin-bdm repository, shallowly embedded in Lean 4.

Embedded source files:
  scripts/study/adaptive_study.py   (adaptive_consensus, _compute_cv,
                                     fit_surrogate, predict_combo,
                                     composite_score, select_combos,
                                     compute_synergy)
  scripts/study/treatment_study.py  (extract_outcomes, time-to-threshold part)
  batch/lib.py                      (aggregate_csvs)

Modelling conventions:
  - Python floats are modelled as rationals; the float constants 0.1, 0.5,
    1e-6, 1e-12 become the exact rationals 1/10, 1/2, 1/1000000, 1/10^12.
  - A Python dict of outcome values, whose tracked scoring keys are
    SCORE_KEYS = [time_to_50pct_days, scar_magnitude, peak_inflammation],
    is modelled as a function from the ScoreKey enumeration to Option of a
    rational; the value none models a missing key or a stored Python None.
  - The external simulation invoked by adaptive_consensus is modelled as a
    function from the attempt index to Option of an outcome mapping, where
    none models a failed replicate (no metrics artifact or no extractable
    outcomes) and some o models a successful replicate with outcomes o.
  - Python list.sort and sorted are stable ascending sorts; list.sort inside
    select_combos is modelled with List.mergeSort (stable, with stability
    lemmas available), sorted inside aggregate_csvs with List.insertionSort
    (stable and kernel-evaluable on concrete input).
  - math.sqrt is modelled by ratSqrt, a rational square root that is exact
    on perfect squares (in particular ratSqrt 0 = 0); no theorem below
    depends on its value away from perfect squares.
-/

namespace SkinBdm

/-- The three outcome keys used for scoring: SCORE_KEYS in
adaptive_study.py, namely time_to_50pct_days, scar_magnitude and
peak_inflammation. -/
inductive ScoreKey where
  | t50
  | scar
  | infl
deriving DecidableEq, Repr

/-- SCORE_KEYS list, in the order of adaptive_study.py line 48. -/
def SCORE_KEYS : List ScoreKey := [.t50, .scar, .infl]

/-- An outcome mapping restricted to the tracked scoring keys.  none models
the key being absent from the Python dict or being stored as None. -/
abbrev Outcomes := ScoreKey → Option ℚ

/-- Python truthiness fallback x or d for a possibly missing numeric x:
None and 0 are falsy and give d, any other number gives itself. -/
def pyOr (x : Option ℚ) (d : ℚ) : ℚ :=
  match x with
  | none => d
  | some v => if v = 0 then d else v

/-- Python max(a, b) on two rationals. -/
def maxQ (a b : ℚ) : ℚ := if b ≤ a then a else b

/-- Mean of a list of rationals: sum(vals) / len(vals). -/
def meanQ (l : List ℚ) : ℚ := l.sum / l.length

/-- Population variance: sum((v - mean) ** 2 for v in vals) / len(vals). -/
def varQ (l : List ℚ) : ℚ := (l.map (fun v => (v - meanQ l) ^ 2)).sum / l.length

/-- Rational model of math.sqrt: exact on perfect squares of rationals
(in particular ratSqrt 0 = 0).  No theorem in this file depends on its
value on non-squares. -/
def ratSqrt (q : ℚ) : ℚ := (Nat.sqrt (q.num.toNat * q.den) : ℚ) / (q.den : ℚ)

/-- The near-zero-mean guard constant 1e-12 of _compute_cv. -/
def cvEps : ℚ := 1 / 10 ^ 12

/-- The non-None values of key k across a list of outcome dicts:
[o.get(key) for o in outcomes_list if o.get(key) is not None]. -/
def valsOf (k : ScoreKey) (l : List Outcomes) : List ℚ :=
  l.filterMap (fun o => o k)

/-- One iteration of the key loop of _compute_cv (adaptive_study.py lines
101-109): skip the key when it has fewer than two values or a near-zero
mean, otherwise contribute std / abs(mean). -/
def cvTerm (l : List Outcomes) (k : ScoreKey) : Option ℚ :=
  let vals := valsOf k l
  if vals.length < 2 then none
  else if |meanQ vals| < cvEps then none
  else some (ratSqrt (varQ vals) / |meanQ vals|)

/-- _compute_cv (adaptive_study.py lines 98-110): mean coefficient of
variation across the scoring keys, or 1.0 when no key contributes. -/
def compute_cv (l : List Outcomes) : ℚ :=
  let cvs := SCORE_KEYS.filterMap (cvTerm l)
  if cvs.isEmpty then 1 else cvs.sum / cvs.length

/-- Observable state of one adaptive_consensus call: the successful
outcomes collected (outcomes_list), the number of simulation invocations
performed (loop iterations executed), and whether the loop ended through
the CV early-stopping break. -/
structure ConsensusResult where
  outcomes : List Outcomes
  invocations : Nat
  converged : Bool

/-- The loop body of adaptive_consensus (adaptive_study.py lines 65-89),
with fuel counting the remaining iterations of for i in range(max_runs),
i the current attempt index and acc the outcomes collected so far.  A
failed attempt (sim i = none) is skipped; a successful one is appended,
and once at least min_runs outcomes are collected the loop breaks as soon
as compute_cv drops below cv_threshold.  The returned mean/std dicts of
the source (computed by _aggregate_outcomes from outcomes_list) and the
copied csv paths are derived from the outcomes field and are not needed by
any claim, so the result record exposes the outcomes list itself. -/
def consensusAux (sim : Nat → Option Outcomes) (minRuns : Nat) (cvThreshold : ℚ) :
    Nat → Nat → List Outcomes → ConsensusResult
  | 0, _, acc => ⟨acc, 0, false⟩
  | fuel + 1, i, acc =>
    match sim i with
    | none =>
      let r := consensusAux sim minRuns cvThreshold fuel (i + 1) acc
      ⟨r.outcomes, r.invocations + 1, r.converged⟩
    | some out =>
      let acc2 := acc ++ [out]
      if minRuns ≤ acc2.length ∧ compute_cv acc2 < cvThreshold then
        ⟨acc2, 1, true⟩
      else
        let r := consensusAux sim minRuns cvThreshold fuel (i + 1) acc2
        ⟨r.outcomes, r.invocations + 1, r.converged⟩

/-- adaptive_consensus (adaptive_study.py lines 55-95): run up to max_runs
simulation attempts, collecting successful outcomes and stopping early on
CV convergence. -/
def adaptive_consensus (sim : Nat → Option Outcomes) (minRuns maxRuns : Nat)
    (cvThreshold : ℚ) : ConsensusResult :=
  consensusAux sim minRuns cvThreshold maxRuns 0 []

/-- A list of outcome dicts on which every scoring key is skipped by
_compute_cv: fewer than two non-missing values, or a mean of magnitude
below 1e-12. -/
def DegenerateOutcomes (l : List Outcomes) : Prop :=
  ∀ k ∈ SCORE_KEYS, (valsOf k l).length < 2 ∨ |meanQ (valsOf k l)| < cvEps

instance (l : List Outcomes) : Decidable (DegenerateOutcomes l) := by
  unfold DegenerateOutcomes; infer_instance

/-- An outcome dict whose tracked scoring keys are all missing (for
example a run whose wound never reached 50% closure and whose other
tracked columns were absent). -/
def oNone : Outcomes := fun _ => none

/-- A simulation whose first attempt fails (no metrics artifact) and whose
later attempts all succeed. -/
def simFailFirst : Nat → Option Outcomes := fun i => if i = 0 then none else some oNone

/-- A simulation whose attempts all succeed. -/
def simAllOk : Nat → Option Outcomes := fun _ => some oNone

/-- A simulation whose attempts all fail. -/
def simAllFail : Nat → Option Outcomes := fun _ => none

/-! Surrogate model, composite scoring and synergy
(adaptive_study.py lines 135-220), and the time-to-threshold part of
extract_outcomes (treatment_study.py lines 196-204). -/

/-- Effects dict produced by fit_surrogate: treatment name to per-key
delta dict; none models the treatment being absent from the dict. -/
abbrev Effects := String → Option (ScoreKey → ℚ)

/-- fit_surrogate (adaptive_study.py lines 135-156): for each single
treatment and each scoring key, delta = outcome - baseline when both are
present, else 0.  The singles dict is modelled as an association list. -/
def fit_surrogate (baseline : Outcomes) (singles : List (String × Outcomes)) : Effects :=
  fun t => (singles.lookup t).map (fun o k =>
    match baseline k, o k with
    | some bv, some tv => tv - bv
    | _, _ => 0)

/-- predict_combo (adaptive_study.py lines 159-166): predicted =
(baseline.get(key, 0) or 0) + sum of effects.get(t, default).get(key, 0)
over the treatments of the combo. -/
def predict_combo (baseline : Outcomes) (effects : Effects) (combo : List String)
    (k : ScoreKey) : ℚ :=
  pyOr (baseline k) 0 +
    (combo.map (fun t => match effects t with | some d => d k | none => 0)).sum

/-- composite_score (adaptive_study.py lines 169-188): 40% time-to-50%
ratio + 30% scar ratio + 30% peak-inflammation ratio, where each missing
or zero entry falls back to a default (30 for time-to-50%, 1 for scar and
inflammation) through Python's x or d, and each baseline denominator is
floored (at 0.1 for time-to-50%, 1e-6 for the others). -/
def composite_score (outcomes baseline : Outcomes) : ℚ :=
  let bT := pyOr (baseline .t50) 30
  let tT := pyOr (outcomes .t50) 30
  let bS := pyOr (baseline .scar) 1
  let tS := pyOr (outcomes .scar) 1
  let bI := pyOr (baseline .infl) 1
  let tI := pyOr (outcomes .infl) 1
  (4 / 10) * (tT / maxQ bT (1 / 10)) +
    (3 / 10) * (tS / maxQ bS (1 / 1000000)) +
    (3 / 10) * (tI / maxQ bI (1 / 1000000))

/-- compute_synergy (adaptive_study.py lines 202-220), per scoring key:
(predicted - observed) / abs(baseline) when all three values are present
and abs(baseline) > 1e-12, else 0. -/
def compute_synergy (observed predicted baseline : Outcomes) (k : ScoreKey) : ℚ :=
  match observed k, predicted k, baseline k with
  | some ov, some pv, some bv => if cvEps < |bv| then (pv - ov) / |bv| else 0
  | _, _, _ => 0

/-- The mean entry added by compute_synergy: the unweighted average of the
per-key synergy values over SCORE_KEYS. -/
def synergy_mean (observed predicted baseline : Outcomes) : ℚ :=
  (SCORE_KEYS.map (compute_synergy observed predicted baseline)).sum / SCORE_KEYS.length

/-- One row of a metrics CSV, restricted to the columns read by the
time-to-threshold loop of extract_outcomes. -/
structure Row where
  wound_closure_pct : ℚ
  step : ℚ

/-- Python int(): truncation toward zero. -/
def truncQ (q : ℚ) : ℤ := if 0 ≤ q then ⌊q⌋ else ⌈q⌉

/-- Python round-half-to-even of a rational to an integer. -/
def roundHalfEven (q : ℚ) : ℤ :=
  let f := ⌊q⌋
  let r := q - f
  if r < 1 / 2 then f
  else if 1 / 2 < r then f + 1
  else if f % 2 = 0 then f else f + 1

/-- Python round(x, 1). -/
def round1 (q : ℚ) : ℚ := (roundHalfEven (q * 10) : ℚ) / 10

/-- The time-to-50%-closure part of extract_outcomes (treatment_study.py
lines 196-204): the first row whose wound_closure_pct reaches 50 yields
round(int(step) * 0.1 / 24, 1) days; if no row reaches 50 the stored value
is the explicit sentinel None, modelled as none. -/
def time_to_50pct (rows : List Row) : Option ℚ :=
  (rows.find? (fun r => decide (50 ≤ r.wound_closure_pct))).map
    (fun r => round1 ((truncQ r.step : ℚ) * (1 / 10) / 24))

/-- Replace the time-to-50% entry of an outcome dict. -/
def setT50 (o : Outcomes) (v : Option ℚ) : Outcomes :=
  fun k => match k with | .t50 => v | k => o k

/-- An outcome dict with the time-to-50% entry missing and the other two
scoring keys equal to 1. -/
def oMissT50 : Outcomes := fun k => match k with | .t50 => none | _ => some 1

/-- A baseline with time-to-50% of 30 days and the other two scoring keys
equal to 1. -/
def bDefault : Outcomes := fun k => match k with | .t50 => some 30 | _ => some 1

/-- An effects dict with no treatments. -/
def effEmpty : Effects := fun _ => none

/-- A single-treatment outcome dict with a 5-day time-to-50% and the other
scoring keys equal to 1. -/
def sFive : Outcomes := fun k => match k with | .t50 => some 5 | _ => some 1

/-! Candidate selection (adaptive_study.py lines 191-199). -/

/-- One scored candidate: the combo, its predicted per-key outcome and its
composite score (a triple, as appended to scored in select_combos). -/
abbrev Scored := List String × (ScoreKey → ℚ) × ℚ

/-- The comparison used by scored.sort(key=lambda x: x[2]): ascending by
the third component. -/
def scoreLE (a b : Scored) : Bool := decide (a.2.2 ≤ b.2.2)

/-- The scored list built by select_combos: for each combo, predict its
outcome and composite-score the prediction against the baseline.  The
predicted dict always carries a numeric value for each scoring key, so it
enters composite_score wrapped in some. -/
def scored_combos (baseline : Outcomes) (effects : Effects)
    (all_combos : List (List String)) : List Scored :=
  all_combos.map (fun c =>
    let predicted := predict_combo baseline effects c
    (c, predicted, composite_score (fun k => some (predicted k)) baseline))

/-- select_combos (adaptive_study.py lines 191-199): score every combo,
sort ascending by composite score with Python's stable list.sort
(modelled by the stable List.mergeSort), and keep the first top_k.  As a
pure function of its four arguments it is deterministic: identical inputs
give the identical list. -/
def select_combos (baseline : Outcomes) (effects : Effects)
    (all_combos : List (List String)) (topK : Nat) : List Scored :=
  ((scored_combos baseline effects all_combos).mergeSort scoreLE).take topK

/-! Consensus aggregation: aggregate_csvs (batch/lib.py lines 199-256).

A loaded CSV (an all_data element produced by load_csv) is modelled as its
list of numeric columns in first-run key order; load_csv only ever
produces non-empty dicts of non-empty, equal-length lists, which the
theorems take as hypotheses.  The printed dropped-run count is modelled as
the nDropped field, and the std series is modelled by the variance series
vars (the source stores math.sqrt of each entry; a sqrt is zero exactly
when the variance is). -/

/-- One loaded run: its numeric columns, each an ordered list of samples. -/
abbrev Run := List (List ℚ)

/-- len(d[columns[0]]): the number of samples of a run, read off its first
column. -/
def runLen (d : Run) : Nat := (d.headD []).length

/-- lengths_sorted[len(lengths_sorted) // 2]: the upper median of the run
lengths, with Python's sorted modelled by the stable insertionSort. -/
def medianLen (runs : List Run) : Nat :=
  let ls := List.insertionSort (· ≤ ·) (runs.map runLen)
  ls.getD (ls.length / 2) 0

/-- min_len = max(1, int(median_len * min_length_fraction)): the length
threshold below which a run is dropped (the default fraction is 0.5). -/
def minKeepLen (runs : List Run) (frac : ℚ) : Nat :=
  max 1 (truncQ ((medianLen runs : ℚ) * frac)).toNat

/-- The runs surviving the length filter. -/
def keptRuns (runs : List Run) (frac : ℚ) : List Run :=
  runs.filter (fun d => decide (minKeepLen runs frac ≤ runLen d))

/-- n_dropped: the number of runs below the length threshold. -/
def droppedCount (runs : List Run) (frac : ℚ) : Nat :=
  runs.countP (fun d => decide (runLen d < minKeepLen runs frac))

/-- filtered after the fallback: if every run was dropped, keep everything. -/
def filteredRuns (runs : List Run) (frac : ℚ) : List Run :=
  if keptRuns runs frac = [] then runs else keptRuns runs frac

/-- The per-column loop of aggregate_csvs (batch/lib.py lines 245-252):
walk timestep indices from i with the given fuel, at each index averaging
over the runs that still have a sample there, stopping at the first index
where none does.  Returns the mean series and the variance series (the
source stores the square roots of the latter as the std series). -/
def colStats (runs : List Run) (j : Nat) : Nat → Nat → List ℚ × List ℚ
  | 0, _ => ([], [])
  | fuel + 1, i =>
    let vals := runs.filterMap (fun d => (d.getD j [])[i]?)
    if vals = [] then ([], [])
    else
      let rest := colStats runs j fuel (i + 1)
      (meanQ vals :: rest.1, varQ vals :: rest.2)

/-- Result of aggregate_csvs: per-column mean series, per-column variance
series (squares of the stored std series), and the reported dropped-run
count. -/
structure AggResult where
  means : List (List ℚ)
  vars : List (List ℚ)
  nDropped : Nat

/-- aggregate_csvs (batch/lib.py lines 199-256) on the loaded runs: filter
abnormally short runs (falling back to the full set when everything would
be dropped), then aggregate each column up to the length of the longest
surviving run.  The column set is the first run's columns, all numeric in
this model. -/
def aggregate_csvs (runs : List Run) (frac : ℚ) : AggResult :=
  match runs with
  | [] => ⟨[], [], 0⟩
  | d0 :: rest =>
    if d0.length = 0 then ⟨[], [], 0⟩
    else
      let flt := filteredRuns (d0 :: rest) frac
      let nRows := (flt.map runLen).foldl max 0
      let stats := (List.range d0.length).map (fun j => colStats flt j nRows 0)
      ⟨stats.map (fun s => s.1), stats.map (fun s => s.2), droppedCount (d0 :: rest) frac⟩

/-- A loaded run with one column of 2 samples. -/
def runShort : Run := [[1, 1]]

/-- A loaded run with one column of 5 samples. -/
def runLong : Run := [[1, 1, 1, 1, 1]]

/-- A loaded run with two columns of two samples each. -/
def runPair : Run := [[1, 2], [3, 4]]

theorem consensusAux_invocations_le (sim : Nat → Option Outcomes) (minRuns : Nat)
    (cvThreshold : ℚ) :
    ∀ fuel i acc, (consensusAux sim minRuns cvThreshold fuel i acc).invocations ≤ fuel := by
  intro fuel
  induction fuel with
  | zero => intro i acc; simp [consensusAux]
  | succ n ih =>
    intro i acc
    simp only [consensusAux]
    cases hsim : sim i with
    | none => simp only [hsim]; simpa using ih (i + 1) acc
    | some out =>
      simp only [hsim]
      split
      · simp
      · simpa using ih (i + 1) (acc ++ [out])

theorem consensusAux_converged_min (sim : Nat → Option Outcomes) (minRuns : Nat)
    (cvThreshold : ℚ) :
    ∀ fuel i acc, (consensusAux sim minRuns cvThreshold fuel i acc).converged = true →
      minRuns ≤ (consensusAux sim minRuns cvThreshold fuel i acc).outcomes.length := by
  intro fuel
  induction fuel with
  | zero => intro i acc h; simp [consensusAux] at h
  | succ n ih =>
    intro i acc
    simp only [consensusAux]
    cases hsim : sim i with
    | none => simp only [hsim]; exact fun h => ih (i + 1) acc h
    | some out =>
      simp only [hsim]
      split
      · next hcond => intro _; simpa using hcond.1
      · exact fun h => ih (i + 1) (acc ++ [out]) h

theorem consensusAux_outcomes_eq (sim : Nat → Option Outcomes) (minRuns : Nat)
    (cvThreshold : ℚ) :
    ∀ fuel i acc, (consensusAux sim minRuns cvThreshold fuel i acc).outcomes =
      acc ++ (List.range' i (consensusAux sim minRuns cvThreshold fuel i acc).invocations).filterMap sim := by
  intro fuel
  induction fuel with
  | zero => intro i acc; simp [consensusAux]
  | succ n ih =>
    intro i acc
    simp only [consensusAux]
    cases hsim : sim i with
    | none =>
      have := ih (i + 1) acc
      simp only [hsim, List.range'_succ, List.filterMap_cons]
      simpa [hsim] using this
    | some out =>
      simp only [hsim]
      split
      · simp [List.range'_succ, List.filterMap_cons, hsim]
      · have := ih (i + 1) (acc ++ [out])
        simp only [List.range'_succ, List.filterMap_cons, hsim]
        simpa using this

theorem cvTerm_eq_none {l : List Outcomes} {k : ScoreKey}
    (h : (valsOf k l).length < 2 ∨ |meanQ (valsOf k l)| < cvEps) :
    cvTerm l k = none := by
  unfold cvTerm
  rcases h with h | h
  · simp [h]
  · by_cases h2 : (valsOf k l).length < 2 <;> simp [h2, h]

theorem compute_cv_of_degenerate {l : List Outcomes} (h : DegenerateOutcomes l) :
    compute_cv l = 1 := by
  unfold compute_cv
  have h1 := cvTerm_eq_none (h .t50 (by simp [SCORE_KEYS]))
  have h2 := cvTerm_eq_none (h .scar (by simp [SCORE_KEYS]))
  have h3 := cvTerm_eq_none (h .infl (by simp [SCORE_KEYS]))
  simp [SCORE_KEYS, h1, h2, h3]

theorem consensusAux_no_stop (sim : Nat → Option Outcomes) (minRuns : Nat)
    (cvThreshold : ℚ) (hcvt : cvThreshold ≤ 1)
    (hdeg : ∀ j, DegenerateOutcomes ((List.range j).filterMap sim)) :
    ∀ fuel i acc, acc = (List.range i).filterMap sim →
      (consensusAux sim minRuns cvThreshold fuel i acc).invocations = fuel ∧
      (consensusAux sim minRuns cvThreshold fuel i acc).converged = false := by
  intro fuel
  induction fuel with
  | zero => intro i acc _; simp [consensusAux]
  | succ n ih =>
    intro i acc hacc
    simp only [consensusAux]
    cases hsim : sim i with
    | none =>
      have hacc' : acc = (List.range (i + 1)).filterMap sim := by
        rw [List.range_succ, List.filterMap_append, hacc]
        simp [hsim]
      have := ih (i + 1) acc hacc'
      simp [this.1, this.2]
    | some out =>
      have hacc2 : acc ++ [out] = (List.range (i + 1)).filterMap sim := by
        rw [List.range_succ, List.filterMap_append, hacc]
        simp [hsim]
      have hcv : compute_cv (acc ++ [out]) = 1 := by
        rw [hacc2]; exact compute_cv_of_degenerate (hdeg (i + 1))
      have hnot : ¬ (minRuns ≤ (acc ++ [out]).length ∧ compute_cv (acc ++ [out]) < cvThreshold) := by
        rintro ⟨-, hlt⟩
        rw [hcv] at hlt
        exact absurd (lt_of_le_of_lt hcvt hlt) (lt_irrefl _)
      simp only [hsim]
      rw [if_neg hnot]
      have := ih (i + 1) (acc ++ [out]) hacc2
      simp [this.1, this.2]

/-- C1: for every configuration (every simulation behaviour and every
parameter choice), adaptive_consensus performs at most max_runs simulation
invocations, and whenever it stops early through the CV break (converged)
it has collected at least min_runs successful replicate outcomes. -/
theorem adaptive_consensus_budget (sim : Nat → Option Outcomes)
    (minRuns maxRuns : Nat) (cvThreshold : ℚ) :
    (adaptive_consensus sim minRuns maxRuns cvThreshold).invocations ≤ maxRuns ∧
    ((adaptive_consensus sim minRuns maxRuns cvThreshold).converged = true →
      minRuns ≤ (adaptive_consensus sim minRuns maxRuns cvThreshold).outcomes.length) :=
  ⟨consensusAux_invocations_le sim minRuns cvThreshold maxRuns 0 [],
   consensusAux_converged_min sim minRuns cvThreshold maxRuns 0 []⟩

/-- Witness for C1: a concrete converging run (min_runs 1, max_runs 2,
cv_threshold 2; on all-missing keys the CV is 1 < 2, so the sampler
converges after the first success) instantiating adaptive_consensus_budget
with the converged hypothesis discharged. -/
theorem adaptive_consensus_budget_witness :
    (adaptive_consensus simAllOk 1 2 2).converged = true ∧
    (adaptive_consensus simAllOk 1 2 2).invocations ≤ 2 ∧
    1 ≤ (adaptive_consensus simAllOk 1 2 2).outcomes.length :=
  ⟨by decide,
   (adaptive_consensus_budget simAllOk 1 2 2).1,
   (adaptive_consensus_budget simAllOk 1 2 2).2 (by decide)⟩

/-- C2 counterexample: with min_runs = max_runs = 2 and cv_threshold 0 (so
the CV break never fires), a single failed first attempt leaves only one
successful replicate, while the same budget with no failure collects two.
The failed attempt consumed one of the max_runs loop iterations: there is
no separate max-attempts ceiling, so failures do count against the
replicate budget and do reduce the number of successes collectible. -/
theorem adaptive_consensus_failure_counterexample :
    (adaptive_consensus simFailFirst 2 2 0).invocations = 2 ∧
    (adaptive_consensus simFailFirst 2 2 0).outcomes.length = 1 ∧
    (adaptive_consensus simAllOk 2 2 0).outcomes.length = 2 := by
  decide

/-- C2 as amended: a failed replicate is skipped (it is never added to the
collected outcomes, hence never counts toward the min_runs convergence
check), but every attempt, failed or successful, consumes one iteration of
the single for-loop over max_runs; the attempt count is bounded by
max_runs, and the collected outcomes are exactly the successful results of
the attempted indices. -/
theorem adaptive_consensus_failures_skipped (sim : Nat → Option Outcomes)
    (minRuns maxRuns : Nat) (cvThreshold : ℚ) :
    (adaptive_consensus sim minRuns maxRuns cvThreshold).invocations ≤ maxRuns ∧
    (adaptive_consensus sim minRuns maxRuns cvThreshold).outcomes =
      (List.range (adaptive_consensus sim minRuns maxRuns cvThreshold).invocations).filterMap sim := by
  refine ⟨consensusAux_invocations_le sim minRuns cvThreshold maxRuns 0 [], ?_⟩
  have := consensusAux_outcomes_eq sim minRuns cvThreshold maxRuns 0 []
  rw [List.range_eq_range']
  simpa using this

/-- C10: on a degenerate outcomes list no scoring key contributes a CV
term, so _compute_cv returns exactly 1; consequently, when every prefix of
the success stream is degenerate and cv_threshold is at most 1, the
adaptive sampler never takes the early-stopping break and performs exactly
max_runs invocations. -/
theorem compute_cv_degenerate_no_early_stop (l : List Outcomes)
    (sim : Nat → Option Outcomes) (minRuns maxRuns : Nat) (cvThreshold : ℚ)
    (hl : DegenerateOutcomes l) (hcvt : cvThreshold ≤ 1)
    (hall : ∀ j, DegenerateOutcomes ((List.range j).filterMap sim)) :
    compute_cv l = 1 ∧
    (adaptive_consensus sim minRuns maxRuns cvThreshold).converged = false ∧
    (adaptive_consensus sim minRuns maxRuns cvThreshold).invocations = maxRuns := by
  have h := consensusAux_no_stop sim minRuns cvThreshold hcvt hall maxRuns 0 [] (by simp)
  exact ⟨compute_cv_of_degenerate hl, h.2, h.1⟩

/-- Witness for C10: two all-missing outcome dicts form a degenerate list,
and an always-failing simulation has every prefix degenerate; with
cv_threshold 1 the sampler runs all three attempts without converging. -/
theorem compute_cv_degenerate_no_early_stop_witness :
    compute_cv [oNone, oNone] = 1 ∧
    (adaptive_consensus simAllFail 1 3 1).converged = false ∧
    (adaptive_consensus simAllFail 1 3 1).invocations = 3 :=
  compute_cv_degenerate_no_early_stop [oNone, oNone] simAllFail 1 3 1
    (by decide) (by norm_num)
    (by
      intro j
      have h : (List.range j).filterMap simAllFail = [] := by
        simp [simAllFail]
      rw [h]; decide)

theorem pyOr_some (v d : ℚ) : pyOr (some v) d = if v = 0 then d else v := rfl

theorem pyOr_some_self (v : ℚ) : pyOr (some v) 0 = v := by
  rw [pyOr_some]
  split <;> simp_all

/-- C3 counterexample: a missing time-to-50% outcome is not excluded from
the composite score; it is silently coerced to the numeric default of 30
days, so the score of an outcome dict with the entry missing equals the
score of the same dict with an observed 30-day value (here both equal 1,
not the 0.6 that dropping the 40% time term would give). -/
theorem composite_score_missing_counterexample :
    oMissT50 ScoreKey.t50 = none ∧
    composite_score oMissT50 bDefault = composite_score (setT50 oMissT50 (some 30)) bDefault ∧
    composite_score oMissT50 bDefault = 1 ∧
    (3 : ℚ) / 10 * 1 + 3 / 10 * 1 ≠ 1 := by
  refine ⟨rfl, ?_, ?_, by norm_num⟩ <;>
    norm_num [composite_score, setT50, oMissT50, bDefault, pyOr, maxQ]

/-- C3 as amended: a never-reached time-to-threshold outcome is stored as
the explicit sentinel None (not zero, not an exception), but in composite
scoring a missing (or zero) time-to-50% value is not excluded: through the
x or 30 fallback it is silently replaced by the numeric default of 30
days, and contributes to the score exactly as an observed 30-day value
would. -/
theorem time_to_50pct_sentinel_score_default (rows : List Row)
    (hnever : ∀ r ∈ rows, r.wound_closure_pct < 50)
    (o b : Outcomes) (hmiss : o .t50 = none) :
    time_to_50pct rows = none ∧
    composite_score o b = composite_score (setT50 o (some 30)) b := by
  constructor
  · unfold time_to_50pct
    have : rows.find? (fun r => decide (50 ≤ r.wound_closure_pct)) = none := by
      rw [List.find?_eq_none]
      intro r hr
      simpa using not_le.mpr (hnever r hr)
    rw [this]
    rfl
  · unfold composite_score setT50
    rw [hmiss]
    norm_num [pyOr]

/-- Witness for C3: concrete rows never reaching 50% closure and a
concrete outcome dict with a missing time-to-50% entry. -/
theorem time_to_50pct_sentinel_score_default_witness :
    time_to_50pct [⟨10, 0⟩, ⟨40, 100⟩] = none ∧
    composite_score oMissT50 bDefault = composite_score (setT50 oMissT50 (some 30)) bDefault :=
  time_to_50pct_sentinel_score_default [⟨10, 0⟩, ⟨40, 100⟩]
    (by intro r hr; fin_cases hr <;> norm_num)
    oMissT50 bDefault rfl

/-- C6 counterexample: for a baseline whose time-to-50% entry is the
missing sentinel (a wound that never reached 50% closure), predicting the
empty combo yields the number 0 on that key, not the baseline entry: the
empty-subset prediction does not reproduce the baseline exactly on every
tracked key. -/
theorem predict_combo_empty_counterexample :
    predict_combo oMissT50 effEmpty [] ScoreKey.t50 = 0 ∧
    oMissT50 ScoreKey.t50 ≠ some 0 := by
  constructor
  · norm_num [predict_combo, oMissT50, pyOr]
  · decide

/-- C6 as amended: whenever the baseline has a present numeric value on a
tracked key, the surrogate prediction for the empty subset reproduces that
value exactly on that key, for every effects dict. -/
theorem predict_combo_empty (b : Outcomes) (effects : Effects) (k : ScoreKey)
    (v : ℚ) (h : b k = some v) :
    predict_combo b effects [] k = v := by
  unfold predict_combo
  rw [h, pyOr_some_self]
  simp

/-- Witness for C6: a concrete all-present baseline. -/
theorem predict_combo_empty_witness :
    bDefault ScoreKey.scar = some 1 ∧ predict_combo bDefault effEmpty [] ScoreKey.scar = 1 :=
  ⟨rfl, predict_combo_empty bDefault effEmpty .scar 1 rfl⟩

/-- C7 counterexample: when the baseline's time-to-50% entry is the
missing sentinel, fitting the surrogate from a single treatment that
observed 5 days and predicting that one-element subset yields 0, not the
observed 5: the round trip fails on keys where either side is missing. -/
theorem surrogate_round_trip_counterexample :
    predict_combo oMissT50 (fit_surrogate oMissT50 [("hbo", sFive)]) ["hbo"] ScoreKey.t50 = 0 ∧
    sFive ScoreKey.t50 = some 5 ∧ (0 : ℚ) ≠ 5 := by
  refine ⟨?_, rfl, by norm_num⟩
  norm_num [predict_combo, fit_surrogate, oMissT50, sFive, pyOr]

/-- C7 as amended: on every tracked key where both the baseline and the
single-factor outcome are present, fitting the surrogate from the singles
dict and predicting the one-element subset containing that factor
reproduces the factor's originally observed value exactly. -/
theorem surrogate_round_trip (b : Outcomes) (singles : List (String × Outcomes))
    (t : String) (o : Outcomes) (k : ScoreKey) (bv tv : ℚ)
    (hl : singles.lookup t = some o) (hb : b k = some bv) (ht : o k = some tv) :
    predict_combo b (fit_surrogate b singles) [t] k = tv := by
  unfold predict_combo fit_surrogate
  simp only [List.map_cons, List.map_nil, List.sum_cons, List.sum_nil, add_zero]
  rw [hl]
  simp only [Option.map_some']
  rw [hb, ht, pyOr_some]
  split <;> simp_all

/-- Witness for C7: a concrete all-present baseline and single. -/
theorem surrogate_round_trip_witness :
    predict_combo bDefault (fit_surrogate bDefault [("hbo", sFive)]) ["hbo"] ScoreKey.t50 = 5 :=
  surrogate_round_trip bDefault [("hbo", sFive)] "hbo" sFive .t50 30 5 (by simp) rfl rfl

/-- C8: whenever observed equals predicted on every tracked key,
compute_synergy is 0 on every tracked key (in both the guarded and the
fallback branch) and the mean synergy is 0: the analyzer claims no
interaction when the surrogate is exact. -/
theorem compute_synergy_exact (observed predicted baseline : Outcomes)
    (h : ∀ k, observed k = predicted k) :
    (∀ k, compute_synergy observed predicted baseline k = 0) ∧
    synergy_mean observed predicted baseline = 0 := by
  have hkey : ∀ k, compute_synergy observed predicted baseline k = 0 := by
    intro k
    unfold compute_synergy
    rw [h k]
    cases predicted k with
    | none => rfl
    | some pv =>
      cases baseline k with
      | none => rfl
      | some bv => simp
  refine ⟨hkey, ?_⟩
  unfold synergy_mean SCORE_KEYS
  simp [hkey]

/-- Witness for C8: observed and predicted are the same concrete dict. -/
theorem compute_synergy_exact_witness :
    compute_synergy sFive sFive bDefault ScoreKey.t50 = 0 ∧
    synergy_mean sFive sFive bDefault = 0 :=
  ⟨(compute_synergy_exact sFive sFive bDefault (fun _ => rfl)).1 .t50,
   (compute_synergy_exact sFive sFive bDefault (fun _ => rfl)).2⟩

theorem scoreLE_trans (a b c : Scored) :
    scoreLE a b → scoreLE b c → scoreLE a c := by
  simp only [scoreLE, decide_eq_true_eq]
  exact le_trans

theorem scoreLE_total (a b : Scored) : scoreLE a b || scoreLE b a := by
  simp only [scoreLE, Bool.or_eq_true, decide_eq_true_eq]
  exact le_total _ _

/-- C9: select_combos returns exactly the min(top_k, number of candidates)
lowest-scoring candidates: the result has that length, is ascending in
composite score, every returned candidate scores no higher than every
candidate left behind, the sorted list is a permutation of the scored
candidates, and the sort is stable: the result is the image of the sort of
the index-tagged candidates, which is strictly ordered by (score,
generation index) so that ties keep generation order.  Determinism is
immediate since select_combos is a pure function of its arguments. -/
theorem select_combos_spec (baseline : Outcomes) (effects : Effects)
    (all_combos : List (List String)) (topK : Nat) :
    (select_combos baseline effects all_combos topK).length = min topK all_combos.length ∧
    List.Pairwise (fun a b : Scored => a.2.2 ≤ b.2.2)
      (select_combos baseline effects all_combos topK) ∧
    (∀ x ∈ select_combos baseline effects all_combos topK,
      ∀ y ∈ ((scored_combos baseline effects all_combos).mergeSort scoreLE).drop topK,
        x.2.2 ≤ y.2.2) ∧
    ((scored_combos baseline effects all_combos).mergeSort scoreLE).Perm
      (scored_combos baseline effects all_combos) ∧
    select_combos baseline effects all_combos topK =
      (((scored_combos baseline effects all_combos).enum.mergeSort
        (List.enumLE scoreLE)).map Prod.snd).take topK ∧
    List.Pairwise
      (fun a b : Nat × Scored =>
        a.2.2.2 < b.2.2.2 ∨ (a.2.2.2 = b.2.2.2 ∧ a.1 < b.1))
      ((scored_combos baseline effects all_combos).enum.mergeSort (List.enumLE scoreLE)) := by
  have hsorted := List.sorted_mergeSort scoreLE_trans scoreLE_total
    (scored_combos baseline effects all_combos)
  have hperm := List.mergeSort_perm (scored_combos baseline effects all_combos) scoreLE
  refine ⟨?_, ?_, ?_, hperm, ?_, ?_⟩
  · rw [select_combos, List.length_take, List.length_mergeSort, scored_combos,
      List.length_map]
  · have := hsorted.sublist (List.take_sublist topK _)
    exact this.imp (by simp only [scoreLE, decide_eq_true_eq]; exact fun h => h)
  · intro x hx y hy
    have hsplit := List.take_append_drop topK
      ((scored_combos baseline effects all_combos).mergeSort scoreLE)
    have hpw : List.Pairwise (fun a b : Scored => scoreLE a b)
        (((scored_combos baseline effects all_combos).mergeSort scoreLE).take topK ++
         ((scored_combos baseline effects all_combos).mergeSort scoreLE).drop topK) := by
      rw [hsplit]; exact hsorted
    have := (List.pairwise_append.mp hpw).2.2 x hx y hy
    simpa [scoreLE] using this
  · rw [select_combos, List.mergeSort_enum]
  · have htag := @List.sorted_mergeSort (Nat × Scored) (List.enumLE scoreLE)
      (fun a b c => List.enumLE_trans scoreLE_trans a b c)
      (List.enumLE_total scoreLE_total)
      (scored_combos baseline effects all_combos).enum
    have hne : List.Pairwise (fun a b : Nat × Scored => a.1 ≠ b.1)
        ((scored_combos baseline effects all_combos).enum.mergeSort (List.enumLE scoreLE)) := by
      have hpermT := List.mergeSort_perm
        (scored_combos baseline effects all_combos).enum (List.enumLE scoreLE)
      have hnd : (((scored_combos baseline effects all_combos).enum.mergeSort
          (List.enumLE scoreLE)).map Prod.fst).Nodup := by
        have : ((scored_combos baseline effects all_combos).enum.map Prod.fst).Nodup := by
          rw [List.enum_map_fst]
          exact List.nodup_range _
        exact ((hpermT.map Prod.fst).nodup_iff).mpr this
      rw [List.Nodup, List.pairwise_map] at hnd
      exact hnd
    have hcomb := htag.and hne
    refine hcomb.imp ?_
    rintro ⟨i, a⟩ ⟨j, b⟩ ⟨hle, hij⟩
    simp only [List.enumLE, scoreLE] at hle
    by_cases hab : a.2.2 ≤ b.2.2
    · by_cases hba : b.2.2 ≤ a.2.2
      · right
        refine ⟨le_antisymm hab hba, ?_⟩
        simp only [decide_eq_true_eq, hab, hba, if_true, if_pos] at hle
        exact lt_of_le_of_ne hle hij
      · left; exact lt_of_le_not_le hab hba
    · exfalso
      simp only [decide_eq_true_eq, hab] at hle
      simp at hle

theorem foldl_max_replicate (L : ℕ) : ∀ (n : ℕ) (a : ℕ),
    List.foldl max a (List.replicate n L) = if n = 0 then a else max a L := by
  intro n
  induction n with
  | zero => intro a; simp
  | succ m ih =>
    intro a
    simp only [List.replicate_succ, List.foldl_cons, ih]
    by_cases hm : m = 0 <;> simp [hm, max_assoc]

theorem foldl_max_le_init (l : List ℕ) : ∀ a, a ≤ l.foldl max a := by
  induction l with
  | nil => intro a; simp
  | cons y ys ih => intro a; exact le_trans (le_max_left a y) (ih (max a y))

theorem le_foldl_max (l : List ℕ) : ∀ (a x : ℕ), x ∈ l → x ≤ l.foldl max a := by
  induction l with
  | nil => intro a x h; simp at h
  | cons y ys ih =>
    intro a x h
    rcases List.mem_cons.mp h with h | h
    · subst h
      exact le_trans (le_max_right a x) (foldl_max_le_init ys (max a x))
    · exact ih (max a y) x h

theorem filterMap_replicate_of_some {α β : Type} (f : α → Option β) (x : α) (y : β)
    (h : f x = some y) (n : ℕ) :
    (List.replicate n x).filterMap f = List.replicate n y := by
  induction n with
  | zero => simp
  | succ m ih => simp [List.replicate_succ, List.filterMap_cons, h, ih]

theorem filterMap_replicate_of_none {α β : Type} (f : α → Option β) (x : α)
    (h : f x = none) (n : ℕ) :
    (List.replicate n x).filterMap f = [] := by
  induction n with
  | zero => simp
  | succ m ih => simp [List.replicate_succ, List.filterMap_cons, h, ih]

theorem meanQ_replicate (v : ℚ) (n : ℕ) (hn : 1 ≤ n) :
    meanQ (List.replicate n v) = v := by
  unfold meanQ
  rw [List.sum_replicate, List.length_replicate, nsmul_eq_mul]
  have : (n : ℚ) ≠ 0 := by positivity
  field_simp

theorem varQ_replicate (v : ℚ) (n : ℕ) (hn : 1 ≤ n) :
    varQ (List.replicate n v) = 0 := by
  unfold varQ
  rw [meanQ_replicate v n hn, List.map_replicate, List.sum_replicate]
  simp

theorem range_map_getD (d : Run) :
    (List.range d.length).map (fun j => d.getD j []) = d := by
  apply List.ext_getElem
  · simp
  · intro i h1 h2
    simp only [List.getElem_map, List.getElem_range]
    rw [List.getD_eq_getElem]

theorem map_eq_range_map {β : Type} (d : Run) (f : List ℚ → β) :
    d.map f = (List.range d.length).map (fun j => f (d.getD j [])) := by
  apply List.ext_getElem
  · simp
  · intro i h1 h2
    simp only [List.getElem_map, List.getElem_range]
    rw [List.getD_eq_getElem]

theorem filter_replicate' {α : Type} (p : α → Bool) (x : α) (n : ℕ) :
    (List.replicate n x).filter p = if p x then List.replicate n x else [] := by
  induction n with
  | zero => simp
  | succ m ih =>
    simp only [List.replicate_succ, List.filter_cons, ih]
    by_cases h : p x <;> simp [h, List.replicate_succ]

theorem colStats_replicate (d : Run) (n : ℕ) (hn : 1 ≤ n) (j : ℕ) :
    ∀ fuel i, colStats (List.replicate n d) j fuel i =
      (((d.getD j []).drop i).take fuel,
       (((d.getD j []).drop i).take fuel).map (fun _ => (0 : ℚ))) := by
  intro fuel
  induction fuel with
  | zero => intro i; simp [colStats]
  | succ m ih =>
    intro i
    simp only [colStats]
    by_cases hi : i < (d.getD j []).length
    · have hsome : (fun d' : Run => (d'.getD j [])[i]?) d = some ((d.getD j [])[i]) :=
        List.getElem?_eq_getElem hi
      have hF : List.filterMap (fun d' : Run => (d'.getD j [])[i]?) (List.replicate n d) =
          List.replicate n ((d.getD j [])[i]) :=
        filterMap_replicate_of_some (fun d' : Run => (d'.getD j [])[i]?) d _ hsome n
      rw [hF]
      have hne : List.replicate n ((d.getD j [])[i]) ≠ [] := by
        intro h
        have := congrArg List.length h
        simp at this
        omega
      rw [if_neg hne, ih (i + 1)]
      have hdrop : (d.getD j []).drop i = (d.getD j [])[i] :: (d.getD j []).drop (i + 1) :=
        List.drop_eq_getElem_cons hi
      rw [hdrop, List.take_succ_cons, meanQ_replicate _ n hn, varQ_replicate _ n hn,
        List.map_cons]
    · have hnone : (fun d' : Run => (d'.getD j [])[i]?) d = none :=
        List.getElem?_eq_none (le_of_not_lt hi)
      have hF : List.filterMap (fun d' : Run => (d'.getD j [])[i]?) (List.replicate n d) =
          ([] : List ℚ) :=
        filterMap_replicate_of_none (fun d' : Run => (d'.getD j [])[i]?) d hnone n
      rw [hF, if_pos rfl, List.drop_eq_nil_of_le (le_of_not_lt hi)]
      rfl

/-- C5: aggregating any non-empty set of identical replicate runs yields a
mean series equal to the common input exactly and an all-zero variance
series for every column; since the stored std series is the entrywise
square root of the variance series, it is all zeros as well. -/
theorem aggregate_csvs_identical (d : Run) (n : ℕ) (frac : ℚ)
    (hn : 1 ≤ n) (hd : d ≠ [])
    (hcols : ∀ c ∈ d, c.length = runLen d) :
    (aggregate_csvs (List.replicate n d) frac).means = d ∧
    (aggregate_csvs (List.replicate n d) frac).vars =
      d.map (fun c => List.replicate c.length (0 : ℚ)) := by
  obtain ⟨m, rfl⟩ : ∃ m, n = m + 1 := ⟨n - 1, by omega⟩
  have hrepl : List.replicate (m + 1) d = d :: List.replicate m d := List.replicate_succ d m
  have hrne : List.replicate (m + 1) d ≠ [] := by
    intro h
    have := congrArg List.length h
    simp at this
  have hflt : filteredRuns (List.replicate (m + 1) d) frac = List.replicate (m + 1) d := by
    unfold filteredRuns keptRuns
    rw [filter_replicate']
    by_cases h : (decide (minKeepLen (List.replicate (m + 1) d) frac ≤ runLen d)) = true
    · simp [h, hrne]
    · simp [h]
  have hnrows : ((filteredRuns (List.replicate (m + 1) d) frac).map runLen).foldl max 0 =
      runLen d := by
    rw [hflt, List.map_replicate, foldl_max_replicate]
    simp
  have hlen0 : d.length ≠ 0 := by
    intro h
    exact hd (List.eq_nil_of_length_eq_zero h)
  have hagg : aggregate_csvs (List.replicate (m + 1) d) frac =
      ⟨((List.range d.length).map
          (fun j => colStats (filteredRuns (List.replicate (m + 1) d) frac) j
            (((filteredRuns (List.replicate (m + 1) d) frac).map runLen).foldl max 0) 0)).map
          (fun s => s.1),
       ((List.range d.length).map
          (fun j => colStats (filteredRuns (List.replicate (m + 1) d) frac) j
            (((filteredRuns (List.replicate (m + 1) d) frac).map runLen).foldl max 0) 0)).map
          (fun s => s.2),
       droppedCount (List.replicate (m + 1) d) frac⟩ := by
    conv_lhs => rw [hrepl]
    simp only [aggregate_csvs]
    rw [if_neg hlen0, ← hrepl]
  have hcol : ∀ j ∈ List.range d.length,
      colStats (filteredRuns (List.replicate (m + 1) d) frac) j
        (((filteredRuns (List.replicate (m + 1) d) frac).map runLen).foldl max 0) 0 =
      (d.getD j [], (d.getD j []).map (fun _ => (0 : ℚ))) := by
    intro j hj
    rw [hnrows, hflt, colStats_replicate d (m + 1) (by omega) j (runLen d) 0]
    have hjlt : j < d.length := by simpa using hj
    have hmem : d.getD j [] ∈ d := by
      rw [List.getD_eq_getElem _ _ hjlt]
      exact List.getElem_mem hjlt
    have hc := hcols _ hmem
    simp [← hc]
  constructor
  · rw [hagg]
    simp only [List.map_map]
    calc ((List.range d.length).map _) = (List.range d.length).map (fun j => d.getD j []) := by
          apply List.map_congr_left
          intro j hj
          simp [hcol j hj]
      _ = d := range_map_getD d
  · rw [hagg]
    simp only [List.map_map]
    calc ((List.range d.length).map _) =
        (List.range d.length).map (fun j => (d.getD j []).map (fun _ => (0 : ℚ))) := by
          apply List.map_congr_left
          intro j hj
          simp [hcol j hj]
      _ = d.map (fun c => List.replicate c.length (0 : ℚ)) := by
          rw [map_eq_range_map d (fun c => List.replicate c.length (0 : ℚ))]
          apply List.map_congr_left
          intro j hj
          exact List.map_const' (d.getD j []) 0

theorem getD_zero_eq_headD (l : List (List ℚ)) : l.getD 0 [] = l.headD [] := by
  cases l <;> rfl

/-- C4 (amended): aggregate_csvs reports as dropped exactly the runs
shorter than minKeepLen, that is max(1, int(median_length x fraction))
with int truncating toward zero; the surviving set is the filtered runs
unless the filter would discard everything, in which case it falls back to
the full unfiltered set; and on any non-empty list of loadable runs the
output has one mean series per column of the first run, the first of which
is non-empty. -/
theorem aggregate_csvs_drop_report (runs : List Run) (frac : ℚ)
    (hne : runs ≠ []) (hlen : ∀ d ∈ runs, 1 ≤ runLen d) :
    (aggregate_csvs runs frac).nDropped =
      runs.countP (fun d => decide (runLen d < minKeepLen runs frac)) ∧
    keptRuns runs frac = runs.filter (fun d => decide (minKeepLen runs frac ≤ runLen d)) ∧
    filteredRuns runs frac = (if keptRuns runs frac = [] then runs else keptRuns runs frac) ∧
    filteredRuns runs frac ≠ [] ∧
    (aggregate_csvs runs frac).means.length = (runs.headD []).length ∧
    (aggregate_csvs runs frac).means.getD 0 [] ≠ [] := by
  obtain ⟨d0, rest, rfl⟩ := List.exists_cons_of_ne_nil hne
  have hd0len : 1 ≤ runLen d0 := hlen d0 (by simp)
  have hd0ne : d0 ≠ [] := by
    intro h
    rw [h] at hd0len
    simp [runLen] at hd0len
  have hn0 : d0.length ≠ 0 := by
    intro h
    exact hd0ne (List.eq_nil_of_length_eq_zero h)
  have hAgg : aggregate_csvs (d0 :: rest) frac =
      ⟨((List.range d0.length).map
          (fun j => colStats (filteredRuns (d0 :: rest) frac) j
            (((filteredRuns (d0 :: rest) frac).map runLen).foldl max 0) 0)).map
          (fun s => s.1),
       ((List.range d0.length).map
          (fun j => colStats (filteredRuns (d0 :: rest) frac) j
            (((filteredRuns (d0 :: rest) frac).map runLen).foldl max 0) 0)).map
          (fun s => s.2),
       droppedCount (d0 :: rest) frac⟩ := by
    simp only [aggregate_csvs]
    rw [if_neg hn0]
  have hfltne : filteredRuns (d0 :: rest) frac ≠ [] := by
    unfold filteredRuns
    by_cases h : keptRuns (d0 :: rest) frac = []
    · simp [h]
    · simp [h]
  have hsub : ∀ x ∈ filteredRuns (d0 :: rest) frac, x ∈ (d0 :: rest) := by
    intro x hx
    unfold filteredRuns at hx
    by_cases h : keptRuns (d0 :: rest) frac = []
    · simpa [h] using hx
    · rw [if_neg h] at hx
      exact (List.mem_filter.mp hx).1
  refine ⟨by rw [hAgg]; rfl, rfl, rfl, hfltne, ?_, ?_⟩
  · rw [hAgg]
    simp
  · rw [hAgg]
    obtain ⟨dd, hdd⟩ := List.exists_mem_of_ne_nil _ hfltne
    have hddruns := hsub dd hdd
    have hddlen : 1 ≤ runLen dd := hlen dd hddruns
    have hnrows1 : 1 ≤ ((filteredRuns (d0 :: rest) frac).map runLen).foldl max 0 := by
      refine le_trans hddlen (le_foldl_max _ 0 (runLen dd) ?_)
      exact List.mem_map_of_mem runLen hdd
    obtain ⟨k, hk⟩ : ∃ k, ((filteredRuns (d0 :: rest) frac).map runLen).foldl max 0 = k + 1 :=
      ⟨((filteredRuns (d0 :: rest) frac).map runLen).foldl max 0 - 1, by omega⟩
    have h0lt : 0 < d0.length := Nat.pos_of_ne_zero hn0
    have hgetD : (((List.range d0.length).map
        (fun j => colStats (filteredRuns (d0 :: rest) frac) j
          (((filteredRuns (d0 :: rest) frac).map runLen).foldl max 0) 0)).map
        (fun s => s.1)).getD 0 [] =
        (colStats (filteredRuns (d0 :: rest) frac) 0
          (((filteredRuns (d0 :: rest) frac).map runLen).foldl max 0) 0).1 := by
      rw [List.getD_eq_getElem _ _ (by simpa using h0lt)]
      simp
    rw [hgetD, hk]
    have hdlen0 : 0 < (dd.getD 0 []).length := by
      rw [getD_zero_eq_headD]
      exact hddlen
    have hsome : (fun d' : Run => (d'.getD 0 [])[0]?) dd =
        some ((dd.getD 0 []).get ⟨0, hdlen0⟩) := by
      simp [List.getElem?_eq_getElem hdlen0]
    have hmemv : ((dd.getD 0 []).get ⟨0, hdlen0⟩) ∈
        (filteredRuns (d0 :: rest) frac).filterMap (fun d' : Run => (d'.getD 0 [])[0]?) :=
      List.mem_filterMap.mpr ⟨dd, hdd, hsome⟩
    have hvalsne : (filteredRuns (d0 :: rest) frac).filterMap
        (fun d' : Run => (d'.getD 0 [])[0]?) ≠ [] :=
      List.ne_nil_of_mem hmemv
    simp only [colStats]
    rw [if_neg hvalsne]
    simp

/-- C4 counterexample: for runs of lengths 2, 5, 5 and the default
fraction 1/2, the claim's threshold max(1, median_length x fraction) is
5/2, so the length-2 run is shorter than it and the claim predicts it is
discarded; the code truncates the product with int() first, giving a
threshold of 2, so the run is kept and the reported dropped count is 0. -/
theorem aggregate_csvs_drop_counterexample :
    medianLen [runShort, runLong, runLong] = 5 ∧
    runLen runShort = 2 ∧
    ((2 : ℚ) < max 1 ((5 : ℚ) * (1 / 2))) ∧
    (aggregate_csvs [runShort, runLong, runLong] (1 / 2)).nDropped = 0 := by
  have hmed : medianLen [runShort, runLong, runLong] = 5 := by decide
  have hmin : minKeepLen [runShort, runLong, runLong] (1 / 2) = 2 := by
    rw [minKeepLen, hmed]
    norm_num [truncQ]
    rfl
  refine ⟨hmed, rfl, by norm_num, ?_⟩
  have : (aggregate_csvs [runShort, runLong, runLong] (1 / 2)).nDropped =
      droppedCount [runShort, runLong, runLong] (1 / 2) := by
    simp only [aggregate_csvs]
    rw [if_neg (by simp [runShort])]
  rw [this, droppedCount, hmin]
  decide

/-- Witness for C4: a single short run is never dropped and produces a
non-empty consensus. -/
theorem aggregate_csvs_drop_report_witness :
    ([runShort] : List Run) ≠ [] ∧
    (aggregate_csvs [runShort] (1 / 2)).means.getD 0 [] ≠ [] :=
  ⟨by decide,
   (aggregate_csvs_drop_report [runShort] (1 / 2) (by decide) (by decide)).2.2.2.2.2⟩

/-- Witness for C5: two identical two-column runs aggregate to the run
itself with all-zero variances. -/
theorem aggregate_csvs_identical_witness :
    (aggregate_csvs (List.replicate 2 runPair) (1 / 2)).means = runPair ∧
    (aggregate_csvs (List.replicate 2 runPair) (1 / 2)).vars =
      runPair.map (fun c => List.replicate c.length (0 : ℚ)) :=
  aggregate_csvs_identical runPair 2 (1 / 2) (by decide) (by decide) (by decide)

end SkinBdm
